import Mathlib

/- Verification of the `definitely-not-redis` server (src/main.rs): a minimal
RESP (REdis Serialization Protocol) PING/ECHO server over TCP.  Rust strings
are modelled as lists of characters; Rust byte lengths are UTF-8 byte counts;
fallible Rust functions returning `Result<_, String>` become `Except Str _`. -/

namespace DNR

/-- Rust strings modelled as lists of characters. -/
abbrev Str := List Char

/-- The character list of a Lean string literal (used for concrete inputs). -/
def str (s : String) : Str := s.toList

/-- UTF-8 byte length of a string, matching Rust `str::len`. -/
def byteLen (s : Str) : Nat := (s.map Char.utf8Size).sum

/-- The RESP value type (src/main.rs lines 13-16). -/
inductive RESP where
  | BulkString : Str → RESP
  | Array : List RESP → RESP

/-- Strip one carriage return at the end of the current line; the line is
held in reversed order, so this is a head operation. -/
def stripTrailCr : List Char → List Char
  | '\r' :: acc2 => acc2
  | acc => acc

/-- Accumulator loop for Rust `str::lines`: lines are split at `\n`; a line
terminated by `\n` has one trailing `\r` stripped (so `\r\n` is a line
ending); the final line ending is optional, and a final empty segment after a
terminating `\n` yields no extra line.  `acc` holds the reversed current
line. -/
def rustLinesAux : List Char → List Char → List Str
  | [], acc => if acc = [] then [] else [acc.reverse]
  | c :: cs, acc =>
    if c = '\n' then (stripTrailCr acc).reverse :: rustLinesAux cs []
    else rustLinesAux cs (c :: acc)

/-- Rust `str::lines`, as a list of lines. -/
def rustLines (s : Str) : List Str := rustLinesAux s []

/-- Rust `str::strip_prefix` with a single-character pattern. -/
def stripChar (p : Char) : Str → Option Str
  | [] => none
  | c :: rest => if c = p then some rest else none

/-- Rust `str::parse::<usize>`: an optional leading plus sign followed by one
or more ASCII digits; a value at or above 2^64 overflows and fails. -/
def parseUsize (s : Str) : Option Nat :=
  let t := if s.head? = some '+' then s.tail else s
  if t = [] then none
  else if t.all Char.isDigit then
    let v := t.foldl (fun n c => 10 * n + (c.toNat - 48)) 0
    if v < 2 ^ 64 then some v else none
  else none

/-- `RESP::parse_bulk_strings` (src/main.rs lines 40-50): the declared length
is parsed for validity but its value is discarded; the value is the next
line. -/
def parse_bulk_strings (input : Str) : Except Str RESP :=
  match rustLines input with
  | [] => Except.error (str "Invalid bulk string length")
  | l0 :: rest =>
    match (stripChar '$' l0).bind parseUsize with
    | none => Except.error (str "Invalid bulk string length")
    | some _ =>
      match rest with
      | v :: _ => Except.ok (RESP.BulkString v)
      | [] => Except.error (str "Missing bulk string value")

/-- `Vec::join` with separator `"\r\n"`. -/
def joinCrlf : List Str → Str
  | [] => []
  | [x] => x
  | x :: xs => x ++ '\r' :: '\n' :: joinCrlf xs

/-- The element loop of `RESP::parse_array` (src/main.rs lines 61-65):
`count` times, take the next two lines, rejoin them with CRLF, and parse the
chunk as a bulk string; the first error propagates. -/
def parseElems : Nat → List Str → Except Str (List RESP)
  | 0, _ => Except.ok []
  | n + 1, ls =>
    match parse_bulk_strings (joinCrlf (ls.take 2)) with
    | Except.error e => Except.error e
    | Except.ok v =>
      match parseElems n (ls.drop 2) with
      | Except.error e => Except.error e
      | Except.ok vs => Except.ok (v :: vs)

/-- `RESP::parse_array` (src/main.rs lines 52-68). -/
def parse_array (input : Str) : Except Str RESP :=
  match rustLines input with
  | [] => Except.error (str "Invalid array length")
  | l0 :: rest =>
    match (stripChar '*' l0).bind parseUsize with
    | none => Except.error (str "Invalid array length")
    | some count => (parseElems count rest).map RESP.Array

/-- `RESP::parse_redis_protocol` (src/main.rs lines 30-38). -/
def parse_redis_protocol (input : Str) : Except Str RESP :=
  match input with
  | [] => Except.error (str "Invalid Redis protocol")
  | c :: _ =>
    if c = '*' then parse_array input
    else if c = '$' then parse_bulk_strings input
    else Except.error (str "Invalid Redis protocol")

/-- Flattening of one value inside `RESP::get_response_value`: a bulk string
contributes itself; a nested array contributes its bulk-string elements,
dropping anything else. -/
def respFlat : RESP → List Str
  | RESP.BulkString s => [s]
  | RESP.Array arr =>
    arr.filterMap (fun w =>
      match w with
      | RESP.BulkString s => some s
      | RESP.Array _ => none)

/-- `Vec::join` with separator `" "`. -/
def joinSpace : List Str → Str
  | [] => []
  | [x] => x
  | x :: xs => x ++ ' ' :: joinSpace xs

/-- `RESP::get_response_value` (src/main.rs lines 70-92): skip the first
element (the command name), flatten the remaining arguments, join with a
single space. -/
def get_response_value (values : List RESP) : Str :=
  joinSpace ((values.drop 1).flatMap respFlat)

/-- The command-name string `"ECHO"`. -/
def echoCmd : Str := ['E', 'C', 'H', 'O']

/-- The fixed reply `b"+PONG\r\n"`. -/
def pongReply : Str := str "+PONG\r\n"

/-- The ASCII digit for `n < 10`. -/
def digitChar (n : Nat) : Char := Char.ofNat (48 + n)

/-- Decimal digits of a natural number, with fuel for structural recursion. -/
def natDigitsAux : Nat → Nat → List Char
  | 0, _ => []
  | fuel + 1, n =>
    if n < 10 then [digitChar n]
    else natDigitsAux fuel (n / 10) ++ [digitChar (n % 10)]

/-- Decimal digits of a natural number, modelling Rust display formatting. -/
def natDigits (n : Nat) : List Char := natDigitsAux (n + 1) n

/-- The reply `format!("${}\r\n{}\r\n", response.len(), response)` where the
length is the UTF-8 byte length of the response. -/
def bulkReply (s : Str) : Str :=
  '$' :: natDigits (byteLen s) ++ ['\r', '\n'] ++ s ++ ['\r', '\n']

/-- The first bulk-string element of a value list: the `for`/`if let` scan in
`parse_resp_connection_buffer` acts at the first `BulkString` and breaks. -/
def firstBulk : List RESP → Option Str
  | [] => none
  | RESP.BulkString s :: _ => some s
  | RESP.Array _ :: rest => firstBulk rest

/-- Handling of a successfully parsed array (src/main.rs lines 171-197):
at the first bulk-string element, a `starts_with("ECHO")` test selects the
echo reply or the PONG reply, and the buffer is cleared; if no element is a
bulk string, nothing is written and the buffer is kept. -/
def dispatchArray (buf : Str) (values : List RESP) : List Str × Str :=
  match firstBulk values with
  | some s =>
    if echoCmd.isPrefixOf s then ([bulkReply (get_response_value values)], [])
    else ([pongReply], [])
  | none => ([], buf)

/-- Handling of a parse result (src/main.rs lines 170-200): a top-level bulk
string or a parse error writes nothing and keeps the buffer. -/
def dispatchParsed (buf : Str) : Except Str RESP → List Str × Str
  | Except.ok (RESP.Array values) => dispatchArray buf values
  | Except.ok (RESP.BulkString _) => ([], buf)
  | Except.error _ => ([], buf)

/-- One connection's step of `parse_resp_connection_buffer` (src/main.rs
lines 163-206): an empty buffer is skipped; otherwise the buffer is parsed
and handled.  Returns the replies written and the new buffer. -/
def dispatchConn (buf : Str) : List Str × Str :=
  if buf = [] then ([], buf)
  else dispatchParsed buf (parse_redis_protocol buf)

/-- The dispatch phase over the whole registry, keyed by connection id. -/
def dispatch_phase (conns : List (Nat × Str)) : List (Nat × (List Str × Str)) :=
  conns.map (fun c => (c.1, dispatchConn c.2))

/-- `TcpServer` state (src/main.rs lines 23-27): the registry of connection
id to buffer, plus the id counter; sockets are external handles. -/
structure ServerSt where
  connections : List (Nat × Str)
  next_connection_id : Nat

/-- One successful `listener.accept()` arm (src/main.rs lines 121-131):
insert a fresh connection under the current `next_connection_id`, then
increment the counter.  Returns the assigned id as well. -/
def acceptConn (s : ServerSt) : ServerSt × Nat :=
  (⟨(s.next_connection_id, []) :: s.connections, s.next_connection_id + 1⟩,
   s.next_connection_id)

/-- `self.connections.remove(&id)` (src/main.rs line 158). -/
def removeConn (i : Nat) (s : ServerSt) : ServerSt :=
  ⟨s.connections.filter (fun c => c.1 != i), s.next_connection_id⟩

/-- Registry events over the process lifetime that touch the id space. -/
inductive Ev where
  | accept : Ev
  | close : Nat → Ev

/-- Effect of one event on the server state, with the list of ids assigned. -/
def stepEv : Ev → ServerSt → ServerSt × List Nat
  | Ev.accept, s => ((acceptConn s).1, [(acceptConn s).2])
  | Ev.close i, s => (removeConn i s, [])

/-- Run a sequence of events, collecting every id assigned at accept time. -/
def runEvs : List Ev → ServerSt → ServerSt × List Nat
  | [], s => (s, [])
  | e :: evs, s =>
    ((runEvs evs (stepEv e s).1).1,
     (stepEv e s).2 ++ (runEvs evs (stepEv e s).1).2)

def isAccept : Ev → Bool
  | Ev.accept => true
  | Ev.close _ => false

/-- Number of accept events in a sequence. -/
def numAccepts (evs : List Ev) : Nat := evs.countP isAccept

/-- Registry invariant: keys are unique and below the id counter. -/
def serverInv (s : ServerSt) : Prop :=
  (s.connections.map Prod.fst).Nodup ∧
  ∀ k ∈ s.connections.map Prod.fst, k < s.next_connection_id

/-- Result of one non-blocking `read` on a connection socket. -/
inductive ReadResult where
  | closed : ReadResult
  | data : Str → ReadResult
  | wouldBlock : ReadResult
  | fatal : Str → ReadResult

/-- The scan of `handle_connections` (src/main.rs lines 145-156): zero bytes
schedules removal, data is appended to the buffer, a would-block result is a
no-op, and any other error returns `Err` at once, applying no removals. -/
def handleConnsScan (reads : Nat → ReadResult) :
    List (Nat × Str) → Except Str (List (Nat × Str) × List Nat)
  | [] => Except.ok ([], [])
  | (id, buf) :: rest =>
    match reads id with
    | ReadResult.closed =>
      (handleConnsScan reads rest).map (fun p => ((id, buf) :: p.1, id :: p.2))
    | ReadResult.data bs =>
      (handleConnsScan reads rest).map (fun p => ((id, buf ++ bs) :: p.1, p.2))
    | ReadResult.wouldBlock =>
      (handleConnsScan reads rest).map (fun p => ((id, buf) :: p.1, p.2))
    | ReadResult.fatal e => Except.error e

/-- `handle_connections` (src/main.rs lines 142-161): scan every connection,
then delete the ids scheduled for removal. -/
def handle_connections (reads : Nat → ReadResult) (conns : List (Nat × Str)) :
    Except Str (List (Nat × Str)) :=
  (handleConnsScan reads conns).map
    (fun p => p.1.filter (fun c => !(p.2.contains c.1)))

/-- `accept_new_connections` draining `k` pending connections before the
would-block result ends the loop (src/main.rs lines 118-140). -/
def accept_new : Nat → ServerSt → ServerSt
  | 0, s => s
  | k + 1, s => accept_new k (acceptConn s).1

/-- One iteration of `TcpServer::run` (src/main.rs lines 106-116): accept,
read, dispatch; an `Err` from a phase propagates through `?`, ending the
loop.  Returns the new state and the replies written per connection. -/
def tick (k : Nat) (reads : Nat → ReadResult) (s : ServerSt) :
    Except Str (ServerSt × List (Nat × List Str)) :=
  let s1 := accept_new k s
  match handle_connections reads s1.connections with
  | Except.error e => Except.error e
  | Except.ok conns =>
    let d := dispatch_phase conns
    Except.ok (⟨d.map (fun c => (c.1, c.2.2)), s1.next_connection_id⟩,
               d.map (fun c => (c.1, c.2.1)))

/-- The line `$<len>` declaring a bulk string's byte length. -/
def hdrLine (a : Str) : Str := '$' :: natDigits (byteLen a)

/-- Wire encoding of one bulk string: `$<len>\r\n<bytes>\r\n`. -/
def encodeBulk (a : Str) : Str := hdrLine a ++ ['\r', '\n'] ++ a ++ ['\r', '\n']

/-- Wire encoding of a well-formed ECHO request with arguments `as`:
`*<n+1>\r\n$4\r\nECHO\r\n` followed by each argument as a bulk string. -/
def encodeEcho (as : List Str) : Str :=
  ('*' :: natDigits (as.length + 1)) ++ ['\r', '\n'] ++
    ((echoCmd :: as).map encodeBulk).flatten

/-! ## Lemmas about decimal digit rendering -/

theorem digitChar_spec (n : Nat) (h : n < 10) :
    (digitChar n).isDigit = true ∧ (digitChar n).toNat = 48 + n ∧
      digitChar n ≠ '\n' := by
  interval_cases n <;> exact ⟨by decide, by decide, by decide⟩

theorem digit_ne (c : Char) (h : c.isDigit = true) : c ≠ '\n' ∧ c ≠ '+' := by
  refine ⟨fun he => ?_, fun he => ?_⟩ <;> subst he <;> exact absurd h (by decide)

theorem natDigitsAux_isDigit :
    ∀ fuel n, n < fuel → ∀ c ∈ natDigitsAux fuel n, c.isDigit = true := by
  intro fuel
  induction fuel with
  | zero => intro n h; omega
  | succ fuel ih =>
    intro n h c hc
    by_cases h10 : n < 10
    · simp only [natDigitsAux, if_pos h10, List.mem_singleton] at hc
      subst hc
      exact (digitChar_spec n h10).1
    · simp only [natDigitsAux, if_neg h10, List.mem_append,
        List.mem_singleton] at hc
      rcases hc with hc | hc
      · exact ih (n / 10) (by omega) c hc
      · subst hc
        exact (digitChar_spec (n % 10) (Nat.mod_lt n (by omega))).1

theorem natDigitsAux_ne_nil :
    ∀ fuel n, n < fuel → natDigitsAux fuel n ≠ [] := by
  intro fuel
  induction fuel with
  | zero => intro n h; omega
  | succ fuel _ =>
    intro n _
    by_cases h10 : n < 10 <;> simp [natDigitsAux, h10]

theorem natDigitsAux_foldl :
    ∀ fuel n k, n < fuel →
      (natDigitsAux fuel n).foldl (fun m c => 10 * m + (c.toNat - 48)) k
        = k * 10 ^ (natDigitsAux fuel n).length + n := by
  intro fuel
  induction fuel with
  | zero => intro n k h; omega
  | succ fuel ih =>
    intro n k h
    by_cases h10 : n < 10
    · simp only [natDigitsAux, if_pos h10, List.foldl_cons, List.foldl_nil,
        List.length_singleton, pow_one, (digitChar_spec n h10).2.1]
      omega
    · simp only [natDigitsAux, if_neg h10, List.foldl_append,
        List.length_append, List.foldl_cons, List.foldl_nil,
        List.length_singleton]
      rw [ih (n / 10) k (by omega), (digitChar_spec (n % 10)
        (Nat.mod_lt n (by omega))).2.1]
      have h48 : 48 + n % 10 - 48 = n % 10 := by omega
      have hp : (10 : Nat) ^ ((natDigitsAux fuel (n / 10)).length + 1)
          = 10 ^ (natDigitsAux fuel (n / 10)).length * 10 := by ring
      rw [h48, hp]
      have hq : 10 * (n / 10) + n % 10 = n := Nat.div_add_mod n 10
      calc 10 * (k * 10 ^ (natDigitsAux fuel (n / 10)).length + n / 10) + n % 10
          = k * (10 ^ (natDigitsAux fuel (n / 10)).length * 10)
              + (10 * (n / 10) + n % 10) := by ring
        _ = k * (10 ^ (natDigitsAux fuel (n / 10)).length * 10) + n := by
              rw [hq]

theorem natDigits_isDigit (n : Nat) : ∀ c ∈ natDigits n, c.isDigit = true :=
  natDigitsAux_isDigit (n + 1) n (Nat.lt_succ_self n)

theorem natDigits_ne_nil (n : Nat) : natDigits n ≠ [] :=
  natDigitsAux_ne_nil (n + 1) n (Nat.lt_succ_self n)

theorem parseUsize_natDigits (n : Nat) (h : n < 2 ^ 64) :
    parseUsize (natDigits n) = some n := by
  obtain ⟨c, cs, hcons⟩ := List.exists_cons_of_ne_nil (natDigits_ne_nil n)
  have hc : c.isDigit = true := natDigits_isDigit n c (by rw [hcons]; exact List.mem_cons_self c cs)
  have hcp : c ≠ '+' := (digit_ne c hc).2
  unfold parseUsize
  rw [hcons]
  simp only [List.head?_cons, List.tail_cons]
  have ht : (if some c = some '+' then cs else c :: cs) = c :: cs :=
    if_neg (by simp [hcp])
  rw [ht, if_neg (List.cons_ne_nil c cs)]
  have hall : (c :: cs).all Char.isDigit = true := by
    rw [← hcons]
    exact List.all_eq_true.mpr (natDigits_isDigit n)
  rw [if_pos hall, ← hcons]
  have hf := natDigitsAux_foldl (n + 1) n 0 (Nat.lt_succ_self n)
  simp only [natDigits] at hf ⊢
  rw [hf]
  simp only [Nat.zero_mul, Nat.zero_add]
  rw [if_pos h]

/-! ## Lemmas about `rustLines` -/

theorem rustLinesAux_sep (l : Str) :
    ∀ (rest acc : List Char), (∀ c ∈ l, c ≠ '\n') →
      rustLinesAux (l ++ '\r' :: '\n' :: rest) acc
        = (acc.reverse ++ l) :: rustLinesAux rest [] := by
  induction l with
  | nil =>
    intro rest acc _
    show rustLinesAux ('\r' :: '\n' :: rest) acc = _
    simp [rustLinesAux, stripTrailCr]
  | cons c l ih =>
    intro rest acc h
    have hc : c ≠ '\n' := h c (List.mem_cons_self c l)
    show rustLinesAux (c :: (l ++ '\r' :: '\n' :: rest)) acc = _
    simp only [rustLinesAux, if_neg hc]
    rw [ih rest (c :: acc) (fun d hd => h d (List.mem_cons_of_mem c hd))]
    simp

theorem rustLinesAux_last (l : Str) :
    ∀ acc, (∀ c ∈ l, c ≠ '\n') →
      rustLinesAux l acc
        = if acc.reverse ++ l = [] then [] else [acc.reverse ++ l] := by
  induction l with
  | nil =>
    intro acc _
    by_cases ha : acc = [] <;> simp [rustLinesAux, ha]
  | cons c l ih =>
    intro acc h
    have hc : c ≠ '\n' := h c (List.mem_cons_self c l)
    simp only [rustLinesAux, if_neg hc]
    rw [ih (c :: acc) (fun d hd => h d (List.mem_cons_of_mem c hd))]
    have h1 : (c :: acc).reverse ++ l = acc.reverse ++ c :: l := by simp
    have h2 : acc.reverse ++ c :: l ≠ [] := by simp
    rw [h1, if_neg h2]

/-! ## Parsing an encoded ECHO request -/

theorem hdrLine_no_nl (a : Str) : ∀ c ∈ hdrLine a, c ≠ '\n' := by
  intro c hc
  simp only [hdrLine, List.mem_cons] at hc
  rcases hc with rfl | hc
  · decide
  · exact (digit_ne c (natDigits_isDigit _ c hc)).1

theorem rustLines_chunk (a : Str) (ha : a ≠ []) (hn : ∀ c ∈ a, c ≠ '\n') :
    rustLines (hdrLine a ++ '\r' :: '\n' :: a) = [hdrLine a, a] := by
  unfold rustLines
  rw [rustLinesAux_sep (hdrLine a) a [] (hdrLine_no_nl a)]
  rw [rustLinesAux_last a [] hn]
  simp [ha]

theorem stripUsize_hdrLine (a : Str) (hb : byteLen a < 2 ^ 64) :
    (stripChar '$' (hdrLine a)).bind parseUsize = some (byteLen a) := by
  show (some (natDigits (byteLen a))).bind parseUsize = some (byteLen a)
  rw [Option.some_bind]
  exact parseUsize_natDigits _ hb

theorem parse_chunk (a : Str) (ha : a ≠ []) (hn : ∀ c ∈ a, c ≠ '\n')
    (hb : byteLen a < 2 ^ 64) :
    parse_bulk_strings (joinCrlf [hdrLine a, a])
      = Except.ok (RESP.BulkString a) := by
  have hj : joinCrlf [hdrLine a, a] = hdrLine a ++ '\r' :: '\n' :: a := rfl
  have hl : rustLines (joinCrlf [hdrLine a, a]) = [hdrLine a, a] := by
    rw [hj]
    exact rustLines_chunk a ha hn
  simp only [parse_bulk_strings, hl, stripUsize_hdrLine a hb]

theorem rustLinesAux_encodeAll :
    ∀ bs : List Str, (∀ a ∈ bs, ∀ c ∈ a, c ≠ '\n') →
      rustLinesAux ((bs.map encodeBulk).flatten) []
        = bs.flatMap (fun a => [hdrLine a, a]) := by
  intro bs
  induction bs with
  | nil => intro _; simp [rustLinesAux]
  | cons a bs ih =>
    intro h
    have hn : ∀ c ∈ a, c ≠ '\n' := h a (List.mem_cons_self a bs)
    have hrest : ((a :: bs).map encodeBulk).flatten
        = hdrLine a ++ '\r' :: '\n' :: (a ++ '\r' :: '\n' ::
            ((bs.map encodeBulk).flatten)) := by
      simp [encodeBulk, List.append_assoc]
    rw [hrest, rustLinesAux_sep (hdrLine a) _ [] (hdrLine_no_nl a),
      rustLinesAux_sep a _ [] hn,
      ih (fun b hb => h b (List.mem_cons_of_mem a hb))]
    simp

theorem rustLines_encodeEcho (as : List Str)
    (h : ∀ a ∈ echoCmd :: as, ∀ c ∈ a, c ≠ '\n') :
    rustLines (encodeEcho as)
      = ('*' :: natDigits (as.length + 1))
          :: (echoCmd :: as).flatMap (fun a => [hdrLine a, a]) := by
  have hhead : ∀ c ∈ '*' :: natDigits (as.length + 1), c ≠ '\n' := by
    intro c hc
    rcases List.mem_cons.mp hc with rfl | hc
    · decide
    · exact (digit_ne c (natDigits_isDigit _ c hc)).1
  have he : encodeEcho as
      = ('*' :: natDigits (as.length + 1)) ++ '\r' :: '\n' ::
          ((echoCmd :: as).map encodeBulk).flatten := by
    simp [encodeEcho, List.append_assoc]
  unfold rustLines
  rw [he, rustLinesAux_sep _ _ [] hhead, rustLinesAux_encodeAll _ h]
  simp

theorem parseElems_encode :
    ∀ bs : List Str,
      (∀ a ∈ bs, a ≠ [] ∧ (∀ c ∈ a, c ≠ '\n') ∧ byteLen a < 2 ^ 64) →
      parseElems bs.length (bs.flatMap (fun a => [hdrLine a, a]))
        = Except.ok (bs.map RESP.BulkString) := by
  intro bs
  induction bs with
  | nil => intro _; rfl
  | cons a bs ih =>
    intro h
    obtain ⟨ha, hn, hb⟩ := h a (List.mem_cons_self a bs)
    have hflat : (a :: bs).flatMap (fun a => [hdrLine a, a])
        = hdrLine a :: a :: bs.flatMap (fun a => [hdrLine a, a]) := by
      simp
    have hlen : (a :: bs).length = bs.length + 1 := rfl
    rw [hflat, hlen]
    simp only [parseElems, List.take, List.drop]
    rw [parse_chunk a ha hn hb, ih (fun b hb => h b (List.mem_cons_of_mem a hb))]
    simp

theorem parse_encodeEcho (as : List Str)
    (h1 : ∀ a ∈ as, a ≠ [] ∧ (∀ c ∈ a, c ≠ '\n') ∧ byteLen a < 2 ^ 64)
    (h2 : as.length + 1 < 2 ^ 64) :
    parse_redis_protocol (encodeEcho as)
      = Except.ok (RESP.Array ((echoCmd :: as).map RESP.BulkString)) := by
  have hall : ∀ a ∈ echoCmd :: as, a ≠ [] ∧ (∀ c ∈ a, c ≠ '\n') ∧
      byteLen a < 2 ^ 64 := by
    intro a ha
    rcases List.mem_cons.mp ha with rfl | ha
    · exact ⟨by decide, by decide, by decide⟩
    · exact h1 a ha
  have hstar : encodeEcho as = '*' :: (natDigits (as.length + 1) ++ '\r' :: '\n' ::
      ((echoCmd :: as).map encodeBulk).flatten) := by
    simp [encodeEcho, List.append_assoc]
  have hlines := rustLines_encodeEcho as (fun a ha => (hall a ha).2.1)
  have hcount : (stripChar '*' ('*' :: natDigits (as.length + 1))).bind parseUsize
      = some (as.length + 1) := by
    show (some (natDigits (as.length + 1))).bind parseUsize = _
    rw [Option.some_bind]
    exact parseUsize_natDigits _ h2
  have hlen : as.length + 1 = (echoCmd :: as).length := by simp
  rw [hstar]
  show parse_redis_protocol ('*' :: _) = _
  simp only [parse_redis_protocol, if_pos rfl]
  rw [← hstar]
  simp only [parse_array, hlines, hcount]
  rw [hlen, parseElems_encode _ hall]
  rfl

/-! ## The argument join -/

theorem flatMap_respFlat_map (as : List Str) :
    (as.map RESP.BulkString).flatMap respFlat = as := by
  induction as with
  | nil => rfl
  | cons a as ih => simp [respFlat, ih]

theorem grv_bulk (v0 : RESP) (as : List Str) :
    get_response_value (v0 :: as.map RESP.BulkString) = joinSpace as := by
  unfold get_response_value
  rw [List.drop_one, List.tail_cons, flatMap_respFlat_map]

/-! ## Connection-id bookkeeping -/

theorem runEvs_ids :
    ∀ (evs : List Ev) (s : ServerSt),
      (runEvs evs s).2 = List.range' s.next_connection_id (numAccepts evs)
      ∧ (runEvs evs s).1.next_connection_id
          = s.next_connection_id + numAccepts evs := by
  intro evs
  induction evs with
  | nil => intro s; exact ⟨rfl, rfl⟩
  | cons e evs ih =>
    intro s
    cases e with
    | accept =>
      obtain ⟨ha, hb⟩ := ih (acceptConn s).1
      have hnum : numAccepts (Ev.accept :: evs) = numAccepts evs + 1 := by
        simp [numAccepts, List.countP_cons, isAccept]
      refine ⟨?_, ?_⟩
      · show [(acceptConn s).2] ++ (runEvs evs (acceptConn s).1).2 = _
        rw [ha, hnum, List.range'_succ]
        rfl
      · show (runEvs evs (acceptConn s).1).1.next_connection_id = _
        rw [hb, hnum]
        show s.next_connection_id + 1 + numAccepts evs = _
        omega
    | close i =>
      obtain ⟨ha, hb⟩ := ih (removeConn i s)
      have hnum : numAccepts (Ev.close i :: evs) = numAccepts evs := by
        simp [numAccepts, List.countP_cons, isAccept]
      refine ⟨?_, ?_⟩
      · show [] ++ (runEvs evs (removeConn i s)).2 = _
        rw [List.nil_append, ha, hnum]
        rfl
      · show (runEvs evs (removeConn i s)).1.next_connection_id = _
        rw [hb, hnum]
        rfl

theorem serverInv_step (e : Ev) (s : ServerSt) (h : serverInv s) :
    serverInv (stepEv e s).1 := by
  obtain ⟨hn, hb⟩ := h
  cases e with
  | accept =>
    constructor
    · show (s.next_connection_id :: s.connections.map Prod.fst).Nodup
      refine List.Nodup.cons (fun hmem => ?_) hn
      exact absurd (hb _ hmem) (lt_irrefl _)
    · intro k hk
      rcases List.mem_cons.mp hk with rfl | hk
      · exact Nat.lt_succ_self _
      · exact Nat.lt_succ_of_lt (hb k hk)
  | close i =>
    constructor
    · exact ((List.filter_sublist _).map Prod.fst).nodup hn
    · intro k hk
      simp only [List.mem_map] at hk
      obtain ⟨c, hc, rfl⟩ := hk
      exact hb _ (List.mem_map_of_mem Prod.fst (List.mem_of_mem_filter hc))

theorem serverInv_run (evs : List Ev) :
    ∀ s : ServerSt, serverInv s → serverInv (runEvs evs s).1 := by
  induction evs with
  | nil => intro s h; exact h
  | cons e evs ih => intro s h; exact ih _ (serverInv_step e s h)

/-! ## Shape of successful array parses -/

theorem parse_bulk_strings_ok (input : Str) (v : RESP)
    (h : parse_bulk_strings input = Except.ok v) :
    ∃ s, v = RESP.BulkString s := by
  unfold parse_bulk_strings at h
  split at h
  · simp at h
  · split at h
    · simp at h
    · split at h
      · injection h with h
        exact ⟨_, h.symm⟩
      · simp at h

theorem parseElems_bulk :
    ∀ (n : Nat) (ls : List Str) (vs : List RESP),
      parseElems n ls = Except.ok vs → ∀ v ∈ vs, ∃ s, v = RESP.BulkString s := by
  intro n
  induction n with
  | zero =>
    intro ls vs h v hv
    simp only [parseElems] at h
    injection h with h
    subst h
    simp at hv
  | succ n ih =>
    intro ls vs h v hv
    simp only [parseElems] at h
    cases hpb : parse_bulk_strings (joinCrlf (ls.take 2)) with
    | error e => rw [hpb] at h; simp at h
    | ok v0 =>
      rw [hpb] at h
      cases hpe : parseElems n (ls.drop 2) with
      | error e => rw [hpe] at h; simp at h
      | ok vs0 =>
        rw [hpe] at h
        injection h with h
        subst h
        rcases List.mem_cons.mp hv with rfl | hv
        · exact parse_bulk_strings_ok _ _ hpb
        · exact ih _ _ hpe v hv

theorem stripTrailCr_subset (acc : List Char) (c : Char)
    (hc : c ∈ stripTrailCr acc) : c ∈ acc := by
  unfold stripTrailCr at hc
  split at hc
  · exact List.mem_cons_of_mem _ hc
  · exact hc

theorem rustLinesAux_no_nl :
    ∀ (s acc : List Char), (∀ c ∈ acc, c ≠ '\n') →
      ∀ l ∈ rustLinesAux s acc, ∀ c ∈ l, c ≠ '\n' := by
  intro s
  induction s with
  | nil =>
    intro acc hacc l hl c hc
    simp only [rustLinesAux] at hl
    split at hl
    · simp at hl
    · simp only [List.mem_singleton] at hl
      subst hl
      exact hacc c (List.mem_reverse.mp hc)
  | cons d s ih =>
    intro acc hacc l hl c hc
    by_cases hd : d = '\n'
    · subst hd
      simp only [rustLinesAux, if_pos rfl] at hl
      rcases List.mem_cons.mp hl with rfl | hl
      · exact hacc c (stripTrailCr_subset acc c (List.mem_reverse.mp hc))
      · exact ih [] (by simp) l hl c hc
    · simp only [rustLinesAux, if_neg hd] at hl
      refine ih (d :: acc) ?_ l hl c hc
      intro x hx
      rcases List.mem_cons.mp hx with rfl | hx
      · exact hd
      · exact hacc x hx

theorem rustLines_no_nl (s : List Char) :
    ∀ l ∈ rustLines s, ∀ c ∈ l, c ≠ '\n' :=
  rustLinesAux_no_nl s [] (by simp)

theorem parse_chunk_short (ls : List Str)
    (hnl : ∀ l ∈ ls, ∀ c ∈ l, c ≠ '\n') (hlen : ls.length ≤ 1) (v : RESP) :
    parse_bulk_strings (joinCrlf (ls.take 2)) ≠ Except.ok v := by
  cases ls with
  | nil =>
    intro h
    have he : parse_bulk_strings (joinCrlf (List.take 2 ([] : List Str)))
        = Except.error (str "Invalid bulk string length") := rfl
    rw [he] at h
    exact Except.noConfusion h
  | cons l ls2 =>
    cases ls2 with
    | cons l2 ls3 => simp at hlen
    | nil =>
      have hnl1 : ∀ c ∈ l, c ≠ '\n' := hnl l (List.mem_cons_self l [])
      by_cases hl0 : l = []
      · subst hl0
        intro h
        have he : parse_bulk_strings (joinCrlf (List.take 2 [([] : Str)]))
            = Except.error (str "Invalid bulk string length") := rfl
        rw [he] at h
        exact Except.noConfusion h
      · have hlines : rustLines l = [l] := by
          unfold rustLines
          rw [rustLinesAux_last l [] hnl1]
          simp [hl0]
        have htake : joinCrlf (List.take 2 [l]) = l := rfl
        have hred : parse_bulk_strings l
            = (match (stripChar '$' l).bind parseUsize with
               | none => Except.error (str "Invalid bulk string length")
               | some _ => Except.error (str "Missing bulk string value")) := by
          unfold parse_bulk_strings
          rw [hlines]
        intro h
        rw [htake, hred] at h
        cases hsp : (stripChar '$' l).bind parseUsize with
        | none => rw [hsp] at h; exact Except.noConfusion h
        | some m => rw [hsp] at h; exact Except.noConfusion h

theorem parseElems_short :
    ∀ (count : Nat) (ls : List Str), (∀ l ∈ ls, ∀ c ∈ l, c ≠ '\n') →
      ls.length < 2 * count →
      ∃ e, parseElems count ls = Except.error e := by
  intro count
  induction count with
  | zero => intro ls _ h; omega
  | succ n ih =>
    intro ls hnl h
    cases hpb : parse_bulk_strings (joinCrlf (ls.take 2)) with
    | error e => exact ⟨e, by simp only [parseElems, hpb]⟩
    | ok v =>
      by_cases hlen : ls.length ≤ 1
      · exact absurd hpb (parse_chunk_short ls hnl hlen v)
      · have hnl2 : ∀ l ∈ ls.drop 2, ∀ c ∈ l, c ≠ '\n' :=
          fun l hl => hnl l (List.mem_of_mem_drop hl)
        obtain ⟨e, he⟩ := ih (ls.drop 2) hnl2 (by rw [List.length_drop]; omega)
        exact ⟨e, by simp only [parseElems, hpb, he]⟩

/-! ## Dispatch helpers -/

theorem dispatchArray_first (buf : Str) (values : List RESP) (s : Str)
    (hf : firstBulk values = some s) :
    dispatchArray buf values =
      if echoCmd.isPrefixOf s then
        ([bulkReply (get_response_value values)], [])
      else ([pongReply], []) := by
  unfold dispatchArray
  rw [hf]

theorem dispatchArray_none (buf : Str) (values : List RESP)
    (hf : firstBulk values = none) :
    dispatchArray buf values = ([], buf) := by
  unfold dispatchArray
  rw [hf]

/-! ## Claims -/

/-- C1, counterexample: the first bulk string `"ECHOX"` differs from `"ECHO"`,
yet the reply written is the bulk-string echo reply `$0\r\n\r\n`, not
`+PONG\r\n`, refuting the exact-match reading of the dispatch test. -/
theorem c1_counterexample :
    parse_redis_protocol (str "*1\r\n$5\r\nECHOX\r\n")
        = Except.ok (RESP.Array [RESP.BulkString (str "ECHOX")])
    ∧ str "ECHOX" ≠ str "ECHO"
    ∧ dispatchConn (str "*1\r\n$5\r\nECHOX\r\n") = ([str "$0\r\n\r\n"], [])
    ∧ str "$0\r\n\r\n" ≠ pongReply :=
  ⟨rfl, by decide, by decide, by decide⟩

/-- C1 (amended): on a successfully parsed array request, dispatch inspects
the first bulk-string element with a case-sensitive PREFIX test against
`"ECHO"` (Rust `starts_with`): if and only if that element starts with
`"ECHO"` is a bulk-string echo reply written; for any other first bulk
string (for example `"PING"` or `"FOO"`) the reply is exactly `+PONG\r\n`,
and the buffer is cleared in both cases. -/
theorem c1_dispatch_prefix (buf : Str) (values : List RESP) (s : Str)
    (hne : buf ≠ [])
    (hp : parse_redis_protocol buf = Except.ok (RESP.Array values))
    (hf : firstBulk values = some s) :
    dispatchConn buf =
      (if echoCmd.isPrefixOf s then [bulkReply (get_response_value values)]
       else [pongReply], []) := by
  unfold dispatchConn
  rw [if_neg hne, hp]
  show dispatchArray buf values = _
  rw [dispatchArray_first buf values s hf]
  cases hb : echoCmd.isPrefixOf s <;> simp [hb]

/-- C1 witness: the PING request takes the default path and gets `+PONG`. -/
theorem c1_witness :
    dispatchConn (str "*1\r\n$4\r\nPING\r\n") = ([pongReply], []) := by
  have h := c1_dispatch_prefix (str "*1\r\n$4\r\nPING\r\n")
    [RESP.BulkString (str "PING")] (str "PING") (by decide) rfl rfl
  exact h.trans (by decide)

/-- C2, counterexample: the empty string contains no CRLF, yet the
well-formed ECHO request with the single argument `""` produces no reply at
all (the rejoined chunk `$0\r\n` loses its value line), instead of the
predicted `$0\r\n\r\n`. -/
theorem c2_counterexample :
    dispatchConn (str "*2\r\n$4\r\nECHO\r\n$0\r\n\r\n")
        = ([], str "*2\r\n$4\r\nECHO\r\n$0\r\n\r\n")
    ∧ ([] : List Str) ≠ [str "$0\r\n\r\n"] :=
  ⟨by decide, by decide⟩

/-- C2 (amended): for every sequence of NONEMPTY argument strings containing
no line feed (hence no CRLF), the well-formed ECHO request of `n+1` bulk
strings yields exactly the reply `$len\r\n<a1 SP ... SP an>\r\n`, where the
payload is the arguments joined with a single ASCII space in order and `len`
is the byte length of the joined string (the declared lengths fit in
`usize`; the nested-array flattening of `get_response_value` is not
exercised, as parsed requests contain only bulk strings). -/
theorem c2_echo_round_trip (as : List Str)
    (h1 : ∀ a ∈ as, a ≠ [] ∧ (∀ c ∈ a, c ≠ '\n') ∧ byteLen a < 2 ^ 64)
    (h2 : as.length + 1 < 2 ^ 64) :
    dispatchConn (encodeEcho as) = ([bulkReply (joinSpace as)], []) := by
  have hne : encodeEcho as ≠ [] := by simp [encodeEcho]
  unfold dispatchConn
  rw [if_neg hne, parse_encodeEcho as h1 h2]
  show dispatchArray (encodeEcho as) ((echoCmd :: as).map RESP.BulkString) = _
  rw [dispatchArray_first _ _ echoCmd (by rw [List.map_cons]; rfl)]
  rw [if_pos (by decide : echoCmd.isPrefixOf echoCmd = true)]
  rw [List.map_cons, grv_bulk]

/-- C2 witness: `ECHO hi yo` replies `$5\r\nhi yo\r\n`. -/
theorem c2_witness :
    dispatchConn (encodeEcho [str "hi", str "yo"])
      = ([str "$5\r\nhi yo\r\n"], []) := by
  have h := c2_echo_round_trip [str "hi", str "yo"] (by decide) (by decide)
  exact h.trans (by decide)

/-- C3: the ECHO request `*2\r\n$4\r\nECHO\r\n$5\r\nhello\r\n` split after
byte 21 refutes split-safety: the first fragment alone already parses (the
declared length 5 is ignored) and produces the premature, wrong reply
`$3\r\nhel\r\n`, clearing the buffer; the leftover `lo\r\n` then never
produces a reply; the correct whole-request reply would have been
`$5\r\nhello\r\n`. -/
theorem c3_premature_reply :
    dispatchConn (str "*2\r\n$4\r\nECHO\r\n$5\r\nhel")
        = ([str "$3\r\nhel\r\n"], [])
    ∧ dispatchConn (str "*2\r\n$4\r\nECHO\r\n$5\r\nhel" ++ str "lo\r\n")
        = ([str "$5\r\nhello\r\n"], [])
    ∧ dispatchConn (str "lo\r\n") = ([], str "lo\r\n")
    ∧ str "$3\r\nhel\r\n" ≠ str "$5\r\nhello\r\n" :=
  ⟨by decide, by decide, by decide, by decide⟩

/-- C4: with two connections, a non-would-block read error on connection 1
makes `handle_connections` return `Err` at once — no connection is removed,
and the whole `run` tick propagates the error, terminating the event loop,
instead of isolating the failure to connection 1. -/
theorem c4_read_error_aborts_tick :
    handle_connections
        (fun i => if i = 1 then ReadResult.fatal (str "connection reset")
                  else ReadResult.wouldBlock)
        [(1, []), (2, [])]
      = Except.error (str "connection reset")
    ∧ tick 0
        (fun i => if i = 1 then ReadResult.fatal (str "connection reset")
                  else ReadResult.wouldBlock)
        ⟨[(1, []), (2, [])], 3⟩
      = Except.error (str "connection reset") :=
  ⟨rfl, rfl⟩

/-- C5, counterexample: `$5\r\nhi\r\n` declares byte length 5 for a 2-byte
payload, yet parsing succeeds with `BulkString "hi"` instead of failing —
declared bulk-string lengths are never validated. -/
theorem c5_counterexample :
    parse_redis_protocol (str "$5\r\nhi\r\n")
        = Except.ok (RESP.BulkString (str "hi"))
    ∧ byteLen (str "hi") ≠ 5 :=
  ⟨rfl, by decide⟩

/-- C5 (amended): truncation in the array direction does fail: whenever the
declared element count exceeds the available line pairs (fewer than
`2 * count` lines after the header), `parse_array` returns an error rather
than a value.  Declared bulk lengths are not validated (see the
counterexample), and surplus lines beyond the declared count are ignored. -/
theorem c5_truncated_array_errors (input l0 : Str) (rest : List Str)
    (count : Nat)
    (h1 : rustLines input = l0 :: rest)
    (h2 : (stripChar '*' l0).bind parseUsize = some count)
    (h3 : rest.length < 2 * count) :
    ∃ e, parse_array input = Except.error e := by
  have hnl : ∀ l ∈ rest, ∀ c ∈ l, c ≠ '\n' := by
    intro l hl
    exact rustLines_no_nl input l (by rw [h1]; exact List.mem_cons_of_mem _ hl)
  obtain ⟨e, he⟩ := parseElems_short count rest hnl h3
  refine ⟨e, ?_⟩
  simp only [parse_array, h1, h2, he, Except.map]

/-- C5 witness: `*1\r\n` declares one element but has no lines left. -/
theorem c5_witness : ∃ e, parse_array (str "*1\r\n") = Except.error e :=
  c5_truncated_array_errors (str "*1\r\n") (str "*1") [] 1
    (by decide) (by decide) (by decide)

/-- C6: when the buffered bytes fail to parse, the dispatch attempt is
atomic in its failure: no reply is written and the buffer is left exactly
as it was. -/
theorem c6_parse_error_atomic (buf : Str) (e : Str)
    (hp : parse_redis_protocol buf = Except.error e) :
    dispatchConn buf = ([], buf) := by
  by_cases hb : buf = []
  · subst hb; rfl
  · unfold dispatchConn
    rw [if_neg hb, hp]
    rfl

/-- C6 witness: the unparsable buffer `x` is kept with no reply. -/
theorem c6_witness : dispatchConn (str "x") = ([], str "x") :=
  c6_parse_error_atomic (str "x") (str "Invalid Redis protocol") rfl

/-- C7: connection identifiers are strictly monotonically increasing over
the process lifetime: in any sequence of accept and close events the ids
assigned at accept time are exactly the consecutive range starting at the
current counter, are pairwise increasing and never repeated (even after the
earlier connection is removed), the counter advances by one per accept, and
the registry keys stay unique. -/
theorem c7_ids_monotone (evs : List Ev) (s : ServerSt) (h : serverInv s) :
    (runEvs evs s).2 = List.range' s.next_connection_id (numAccepts evs)
    ∧ (runEvs evs s).1.next_connection_id
        = s.next_connection_id + numAccepts evs
    ∧ List.Pairwise (· < ·) (runEvs evs s).2
    ∧ (runEvs evs s).2.Nodup
    ∧ serverInv (runEvs evs s).1 := by
  obtain ⟨ha, hb⟩ := runEvs_ids evs s
  refine ⟨ha, hb, ?_, ?_, serverInv_run evs s h⟩
  · rw [ha]
    exact List.pairwise_lt_range' _ _
  · rw [ha]
    exact List.nodup_range' _ _

/-- C7 witness: from the initial state (`next_connection_id = 1`), accepting,
closing connection 1, then accepting again assigns ids 1 and 2 — the freed
id 1 is not reused. -/
theorem c7_witness :
    (runEvs [Ev.accept, Ev.close 1, Ev.accept] (⟨[], 1⟩ : ServerSt)).2
        = List.range' 1 2
    ∧ (runEvs [Ev.accept, Ev.close 1, Ev.accept]
        (⟨[], 1⟩ : ServerSt)).1.next_connection_id = 3
    ∧ List.Pairwise (· < ·)
        (runEvs [Ev.accept, Ev.close 1, Ev.accept] (⟨[], 1⟩ : ServerSt)).2
    ∧ (runEvs [Ev.accept, Ev.close 1, Ev.accept] (⟨[], 1⟩ : ServerSt)).2.Nodup
    ∧ serverInv (runEvs [Ev.accept, Ev.close 1, Ev.accept]
        (⟨[], 1⟩ : ServerSt)).1 :=
  c7_ids_monotone [Ev.accept, Ev.close 1, Ev.accept] ⟨[], 1⟩
    ⟨List.nodup_nil, by simp⟩

/-- C8: a connection with an empty buffer is a no-op for the dispatch phase
on every tick: no reply is written, its buffer stays empty under any number
of iterated dispatch steps, and its registry entry passes through the phase
unchanged. -/
theorem c8_empty_buffer_noop (n id : Nat) (pre post : List (Nat × Str)) :
    (dispatchConn []).1 = []
    ∧ dispatch_phase (pre ++ (id, ([] : Str)) :: post)
        = dispatch_phase pre ++ (id, ([], [])) :: dispatch_phase post
    ∧ (fun b => (dispatchConn b).2)^[n] [] = [] := by
  refine ⟨rfl, ?_, Function.iterate_fixed rfl n⟩
  unfold dispatch_phase
  rw [List.map_append, List.map_cons]
  rfl

/-- C9: every value successfully returned by `parse_array` is an `Array`
whose elements are all `BulkString`s — nested arrays are never produced —
so any nonempty parsed array has a bulk string first. -/
theorem c9_array_elems_bulk (input : Str) (r : RESP)
    (h : parse_array input = Except.ok r) :
    ∃ vs, r = RESP.Array vs ∧ ∀ v ∈ vs, ∃ s, v = RESP.BulkString s := by
  unfold parse_array at h
  cases hl : rustLines input with
  | nil => simp only [hl] at h; exact Except.noConfusion h
  | cons l0 rest =>
    simp only [hl] at h
    cases hc : (stripChar '*' l0).bind parseUsize with
    | none => simp only [hc] at h; exact Except.noConfusion h
    | some count =>
      simp only [hc] at h
      cases hpe : parseElems count rest with
      | error e =>
        simp only [hpe, Except.map] at h
        exact Except.noConfusion h
      | ok vs =>
        simp only [hpe, Except.map, Except.ok.injEq] at h
        exact ⟨vs, h.symm, parseElems_bulk count rest vs hpe⟩

/-- C9 witness: `*1\r\n$4\r\nPING\r\n` parses to an array of bulk strings. -/
theorem c9_witness :
    ∃ vs, RESP.Array [RESP.BulkString (str "PING")] = RESP.Array vs
      ∧ ∀ v ∈ vs, ∃ s, v = RESP.BulkString s :=
  c9_array_elems_bulk (str "*1\r\n$4\r\nPING\r\n")
    (RESP.Array [RESP.BulkString (str "PING")]) rfl

/-- Parse results the dispatch loop does not act on: a top-level bulk string,
or an array none of whose elements is a bulk string (e.g. an empty array). -/
def noBulkTarget : RESP → Prop
  | RESP.BulkString _ => True
  | RESP.Array vs => firstBulk vs = none

/-- C10: a buffer that parses successfully but is not an array containing a
bulk-string element — a standalone top-level bulk string, or an empty array
`*0\r\n` — gets no reply and keeps its buffer unchanged, so the identical
bytes are re-parsed on every subsequent tick. -/
theorem c10_unhandled_ok_noop (buf : Str) (v : RESP)
    (hp : parse_redis_protocol buf = Except.ok v)
    (hv : noBulkTarget v) :
    dispatchConn buf = ([], buf)
    ∧ ∀ n : Nat, (fun b => (dispatchConn b).2)^[n] buf = buf := by
  have h1 : dispatchConn buf = ([], buf) := by
    by_cases hb : buf = []
    · subst hb; rfl
    · unfold dispatchConn
      rw [if_neg hb, hp]
      cases v with
      | BulkString s => rfl
      | Array vs =>
        show dispatchArray buf vs = ([], buf)
        exact dispatchArray_none buf vs hv
  refine ⟨h1, fun n => Function.iterate_fixed ?_ n⟩
  show (dispatchConn buf).2 = buf
  rw [h1]

/-- C10 witness: the empty array `*0\r\n` parses but is never answered. -/
theorem c10_witness :
    dispatchConn (str "*0\r\n") = ([], str "*0\r\n")
    ∧ ∀ n : Nat,
        (fun b => (dispatchConn b).2)^[n] (str "*0\r\n") = str "*0\r\n" :=
  c10_unhandled_ok_noop (str "*0\r\n") (RESP.Array []) rfl rfl

end DNR
